import Mathlib

/-!
Verification of the Veritas Reputation Scoring module (src/src/scoring.py).

The module consists of five pure numeric functions.  Python floats are
embedded as exact rationals; Python's round to 2 decimal places
(round-half-to-even) is modelled over the rationals, and the single
exceptional path (ValueError on a bad weight sum) is modelled with an
explicit error type on the result.
-/

namespace Veritas

/-- The single error condition of the module: the ValueError raised by
calculate_VRS when the weights do not sum to 1.0 within tolerance 0.01. -/
inductive VRSError : Type where
  | invalidWeights
  deriving DecidableEq

/-- Source credibility sub-score, from compute_S in scoring.py (lines 43-46):
average of credibility and reputation plus a verification bonus capped at
0.1, clamped to at most 1.0. -/
def compute_S (credibility_score source_reputation verification_count : ℚ) : ℚ :=
  let base_score := (credibility_score + source_reputation) / 2
  let verification_bonus := min (verification_count * 0.02) 0.1
  min (base_score + verification_bonus) 1.0

/-- Content quality sub-score, from compute_C in scoring.py (lines 74-76):
average of accuracy and completeness minus the bias penalty, clamped to a
minimum of 0.0. -/
def compute_C (accuracy completeness bias_score : ℚ) : ℚ :=
  let base_score := (accuracy + completeness) / 2
  max (base_score - bias_score) 0.0

/-- Temporal relevance sub-score, from compute_T in scoring.py (lines
104-108): linear decay clamped below at 0.0, plus an update bonus capped at
0.15, clamped above at 1.0. -/
def compute_T (age_days update_frequency relevance_decay : ℚ) : ℚ :=
  let base_score := max (1.0 - age_days * relevance_decay) 0.0
  let update_bonus := min (update_frequency * 0.05) 0.15
  min (base_score + update_bonus) 1.0

/-- Round a rational to the nearest integer, ties to even: the rule of
Python's built-in round, applied here to exact rationals. -/
def roundHalfEvenInt (y : ℚ) : ℤ :=
  if y - ⌊y⌋ < 1 / 2 then ⌊y⌋
  else if 1 / 2 < y - ⌊y⌋ then ⌊y⌋ + 1
  else if ⌊y⌋ % 2 = 0 then ⌊y⌋ else ⌊y⌋ + 1

/-- Python's round(x, 2): round to 2 decimal places, ties to even. -/
def pyRound2 (x : ℚ) : ℚ :=
  (roundHalfEvenInt (x * 100) : ℚ) / 100

/-- Final score, from calculate_VRS in scoring.py (lines 146-152): rejects
weights whose sum differs from 1.0 by more than 0.01, otherwise returns the
weighted sum rounded to 2 decimals. -/
def calculate_VRS (S C T w1 w2 w3 : ℚ) : Except VRSError ℚ :=
  if |w1 + w2 + w3 - 1.0| > 0.01 then Except.error VRSError.invalidWeights
  else Except.ok (pyRound2 (w1 * S + w2 * C + w3 * T))

/-- Convenience wrapper, from calculate_VRS_from_raw in scoring.py (lines
197-200): computes the three sub-scores and hands them to calculate_VRS. -/
def calculate_VRS_from_raw (credibility_score source_reputation verification_count
    accuracy completeness bias_score
    age_days update_frequency relevance_decay
    w1 w2 w3 : ℚ) : Except VRSError ℚ :=
  let S := compute_S credibility_score source_reputation verification_count
  let C := compute_C accuracy completeness bias_score
  let T := compute_T age_days update_frequency relevance_decay
  calculate_VRS S C T w1 w2 w3

/-! Shared helper lemmas. -/

lemma calculate_VRS_ok_of (S C T w1 w2 w3 : ℚ) (h : |w1 + w2 + w3 - 1.0| ≤ 0.01) :
    calculate_VRS S C T w1 w2 w3 = Except.ok (pyRound2 (w1 * S + w2 * C + w3 * T)) := by
  unfold calculate_VRS
  rw [if_neg (not_lt.mpr h)]

lemma calculate_VRS_error_of (S C T w1 w2 w3 : ℚ) (h : 0.01 < |w1 + w2 + w3 - 1.0|) :
    calculate_VRS S C T w1 w2 w3 = Except.error VRSError.invalidWeights := by
  unfold calculate_VRS
  rw [if_pos h]

lemma vrs_error_iff (S C T w1 w2 w3 : ℚ) :
    calculate_VRS S C T w1 w2 w3 = Except.error VRSError.invalidWeights ↔
      0.01 < |w1 + w2 + w3 - 1.0| := by
  rcases le_or_lt |w1 + w2 + w3 - 1.0| 0.01 with h | h
  · rw [calculate_VRS_ok_of S C T w1 w2 w3 h]
    exact ⟨fun hx => Except.noConfusion hx, fun hx => absurd hx (not_lt.mpr h)⟩
  · rw [calculate_VRS_error_of S C T w1 w2 w3 h]
    exact ⟨fun _ => h, fun _ => rfl⟩

lemma vrs_ok_iff (S C T w1 w2 w3 : ℚ) :
    (∃ r, calculate_VRS S C T w1 w2 w3 = Except.ok r) ↔
      |w1 + w2 + w3 - 1.0| ≤ 0.01 := by
  rcases le_or_lt |w1 + w2 + w3 - 1.0| 0.01 with h | h
  · rw [calculate_VRS_ok_of S C T w1 w2 w3 h]
    exact ⟨fun _ => h, fun _ => ⟨_, rfl⟩⟩
  · rw [calculate_VRS_error_of S C T w1 w2 w3 h]
    refine ⟨?_, fun hx => absurd h (not_lt.mpr hx)⟩
    rintro ⟨r, hr⟩
    exact Except.noConfusion hr

lemma roundHalfEvenInt_near (y : ℚ) :
    |(roundHalfEvenInt y : ℚ) - y| ≤ 1 / 2 ∧
      (|(roundHalfEvenInt y : ℚ) - y| = 1 / 2 → roundHalfEvenInt y % 2 = 0) := by
  have hf : (⌊y⌋ : ℚ) ≤ y := Int.floor_le y
  have hf1 : y < ⌊y⌋ + 1 := Int.lt_floor_add_one y
  unfold roundHalfEvenInt
  split_ifs with h1 h2 h3
  · constructor
    · rw [abs_le]
      constructor <;> linarith
    · intro heq
      have habs : |(⌊y⌋ : ℚ) - y| = y - ⌊y⌋ := by
        rw [abs_sub_comm, abs_of_nonneg (by linarith)]
      rw [habs] at heq
      linarith
  · have h2' : 1 / 2 < y - ⌊y⌋ := h2
    constructor
    · rw [abs_le]
      push_cast
      constructor <;> linarith
    · intro heq
      have habs : |((⌊y⌋ + 1 : ℤ) : ℚ) - y| = (⌊y⌋ + 1) - y := by
        rw [abs_of_nonneg (by push_cast; linarith)]
        push_cast
        ring
      rw [habs] at heq
      linarith
  · have hty : y - ⌊y⌋ = 1 / 2 := le_antisymm (not_lt.mp h2) (not_lt.mp h1)
    constructor
    · rw [abs_le]
      constructor <;> linarith
    · intro _
      exact h3
  · have hty : y - ⌊y⌋ = 1 / 2 := le_antisymm (not_lt.mp h2) (not_lt.mp h1)
    constructor
    · rw [abs_le]
      push_cast
      constructor <;> linarith
    · intro _
      omega

/-! Claim theorems. -/

/-- Claim C1 fails as stated: compute_S applies no lower clamp, so the
out-of-domain input (-2, -2, 0) yields a sub-score of -2, outside
[0.0, 1.0]. -/
theorem compute_S_below_zero : compute_S (-2) (-2) 0 = -2 ∧ compute_S (-2) (-2) 0 < 0 := by
  have h : compute_S (-2) (-2) 0 = -2 := by
    norm_num [compute_S, min_def]
  exact ⟨h, by rw [h]; norm_num⟩

/-- Claim C1 (amended): for every numeric input, each sub-score is clamped
on one side only: compute_S is at most 1.0, compute_C is at least 0.0, and
compute_T is at most 1.0; two-sided containment in [0.0, 1.0] holds only
for inputs within the documented domains. -/
theorem subscore_one_sided_clamps (c r v a k b ad u d : ℚ) :
    compute_S c r v ≤ 1.0 ∧ 0.0 ≤ compute_C a k b ∧ compute_T ad u d ≤ 1.0 := by
  refine ⟨?_, ?_, ?_⟩
  · exact min_le_right _ _
  · exact le_max_right _ _
  · exact min_le_right _ _

/-- Claim C2: calculate_VRS fails with InvalidWeights exactly when the
weight sum is off by more than 0.01, and returns normally (with some score)
exactly when it is within tolerance, for every S, C, T. -/
theorem calculate_VRS_error_characterization (S C T w1 w2 w3 : ℚ) :
    (calculate_VRS S C T w1 w2 w3 = Except.error VRSError.invalidWeights ↔
      0.01 < |w1 + w2 + w3 - 1.0|) ∧
    ((∃ r, calculate_VRS S C T w1 w2 w3 = Except.ok r) ↔
      |w1 + w2 + w3 - 1.0| ≤ 0.01) :=
  ⟨vrs_error_iff S C T w1 w2 w3, vrs_ok_iff S C T w1 w2 w3⟩

/-- Claim C4: calculate_VRS_from_raw is exactly the composition of the three
sub-score functions with calculate_VRS, and it fails with InvalidWeights
exactly when the weight sum is out of tolerance (the failure is propagated
unchanged). -/
theorem calculate_VRS_from_raw_composes (c r v a k b ad u d w1 w2 w3 : ℚ) :
    calculate_VRS_from_raw c r v a k b ad u d w1 w2 w3 =
      calculate_VRS (compute_S c r v) (compute_C a k b) (compute_T ad u d) w1 w2 w3 ∧
    (calculate_VRS_from_raw c r v a k b ad u d w1 w2 w3 =
        Except.error VRSError.invalidWeights ↔ 0.01 < |w1 + w2 + w3 - 1.0|) := by
  refine ⟨rfl, ?_⟩
  exact vrs_error_iff (compute_S c r v) (compute_C a k b) (compute_T ad u d) w1 w2 w3

/-- Claim C5 concerns a bug: the docstring and spec scenario say
compute_S(0.8, 0.9, 5) returns 0.88, but the code returns
min(0.85 + 0.1, 1.0) = 0.95, so the module's own doctest fails. -/
theorem compute_S_doctest_fails : compute_S 0.8 0.9 5 = 0.95 ∧ compute_S 0.8 0.9 5 ≠ 0.88 := by
  have h : compute_S 0.8 0.9 5 = 0.95 := by
    norm_num [compute_S, min_def]
  exact ⟨h, by rw [h]; norm_num⟩

/-- Claim C7: compute_S is the average of credibility and reputation plus a
verification bonus capped at 0.1, clamped to at most 1.0, and no lower
clamp is applied (a negative result is possible). -/
theorem compute_S_formula :
    (∀ c r v : ℚ, compute_S c r v = min ((c + r) / 2 + min (v * 0.02) 0.1) 1.0) ∧
    compute_S (-1) (-1) 0 < 0 := by
  constructor
  · intro c r v
    rfl
  · norm_num [compute_S, min_def]

/-- Claim C8: compute_C is the average of accuracy and completeness minus
the bias penalty, clamped below at 0.0, and no upper clamp is applied (a
result above 1 is possible). -/
theorem compute_C_formula :
    (∀ a k b : ℚ, compute_C a k b = max ((a + k) / 2 - b) 0.0) ∧
    1 < compute_C 2 2 0 := by
  constructor
  · intro a k b
    rfl
  · norm_num [compute_C, max_def]

/-- Claim C3: with in-tolerance weights, calculate_VRS returns the weighted
sum w1*S + w2*C + w3*T rounded to 2 decimal places with ties to even: the
result is an integer number of hundredths within half a hundredth of the
weighted sum, and at an exact tie that integer is even.  No clamping is
applied beyond the rounding. -/
theorem calculate_VRS_rounding (S C T w1 w2 w3 : ℚ)
    (h : |w1 + w2 + w3 - 1.0| ≤ 0.01) :
    calculate_VRS S C T w1 w2 w3 =
      Except.ok ((roundHalfEvenInt ((w1 * S + w2 * C + w3 * T) * 100) : ℚ) / 100) ∧
    |(roundHalfEvenInt ((w1 * S + w2 * C + w3 * T) * 100) : ℚ) / 100 -
        (w1 * S + w2 * C + w3 * T)| ≤ 1 / 200 ∧
    (|(roundHalfEvenInt ((w1 * S + w2 * C + w3 * T) * 100) : ℚ) / 100 -
        (w1 * S + w2 * C + w3 * T)| = 1 / 200 →
      roundHalfEvenInt ((w1 * S + w2 * C + w3 * T) * 100) % 2 = 0) := by
  obtain ⟨hnear, htie⟩ := roundHalfEvenInt_near ((w1 * S + w2 * C + w3 * T) * 100)
  have hscale : (roundHalfEvenInt ((w1 * S + w2 * C + w3 * T) * 100) : ℚ) / 100 -
      (w1 * S + w2 * C + w3 * T) =
      ((roundHalfEvenInt ((w1 * S + w2 * C + w3 * T) * 100) : ℚ) -
        (w1 * S + w2 * C + w3 * T) * 100) / 100 := by
    ring
  refine ⟨?_, ?_, ?_⟩
  · rw [calculate_VRS_ok_of S C T w1 w2 w3 h]
    rfl
  · rw [hscale, abs_div]
    rw [abs_of_pos (by norm_num : (0 : ℚ) < 100)]
    rw [div_le_div_iff₀ (by norm_num) (by norm_num : (0 : ℚ) < 200)]
    linarith
  · intro heq
    apply htie
    rw [hscale, abs_div, abs_of_pos (by norm_num : (0 : ℚ) < 100)] at heq
    have h200 : |(roundHalfEvenInt ((w1 * S + w2 * C + w3 * T) * 100) : ℚ) -
        (w1 * S + w2 * C + w3 * T) * 100| = 100 / 200 := by
      field_simp at heq
      linarith
    rw [h200]
    norm_num

/-- Witness for claim C3 at S = C = T = 1 with the default weights
(0.4, 0.4, 0.2): the weighted sum is 1 and the returned score is 100/100. -/
theorem calculate_VRS_rounding_witness :
    calculate_VRS 1 1 1 0.4 0.4 0.2 =
      Except.ok ((roundHalfEvenInt ((0.4 * 1 + 0.4 * 1 + 0.2 * 1) * 100) : ℚ) / 100) ∧
    |(roundHalfEvenInt ((0.4 * 1 + 0.4 * 1 + 0.2 * 1) * 100) : ℚ) / 100 -
        (0.4 * 1 + 0.4 * 1 + 0.2 * 1)| ≤ 1 / 200 ∧
    (|(roundHalfEvenInt ((0.4 * 1 + 0.4 * 1 + 0.2 * 1) * 100) : ℚ) / 100 -
        (0.4 * 1 + 0.4 * 1 + 0.2 * 1)| = 1 / 200 →
      roundHalfEvenInt ((0.4 * 1 + 0.4 * 1 + 0.2 * 1) * 100) % 2 = 0) :=
  calculate_VRS_rounding 1 1 1 0.4 0.4 0.2 (by norm_num)

/-- Claim C6: compute_T is the clamped linear decay plus the capped update
bonus, clamped above at 1.0; with a nonzero decay rate, zero update
frequency and age exactly 1/relevance_decay the result is exactly 0. -/
theorem compute_T_formula (a u d : ℚ) (hd : d ≠ 0) :
    compute_T a u d = min (max (1.0 - a * d) 0.0 + min (u * 0.05) 0.15) 1.0 ∧
    compute_T (1 / d) 0 d = 0 := by
  constructor
  · rfl
  · have h1 : (1 : ℚ) / d * d = 1 := by
      field_simp
    simp only [compute_T]
    rw [h1]
    norm_num [min_def, max_def]

/-- Witness for claim C6 at age 10 days, 2 updates, decay 0.05: the formula
holds and compute_T(1/0.05, 0, 0.05) = 0. -/
theorem compute_T_formula_witness :
    compute_T 10 2 0.05 = min (max (1.0 - 10 * 0.05) 0.0 + min (2 * 0.05) 0.15) 1.0 ∧
    compute_T (1 / 0.05) 0 0.05 = 0 :=
  compute_T_formula 10 2 0.05 (by norm_num)

/-- Claim C9: for inputs within the documented domains (ratings in [0,1],
counts natural numbers, age and decay nonnegative), each sub-score lies in
[0.0, 1.0]. -/
theorem subscores_in_unit_interval (c r a k b ad d : ℚ) (v u : ℕ)
    (hc0 : 0 ≤ c) (hc1 : c ≤ 1) (hr0 : 0 ≤ r) (hr1 : r ≤ 1)
    (ha0 : 0 ≤ a) (ha1 : a ≤ 1) (hk0 : 0 ≤ k) (hk1 : k ≤ 1)
    (hb0 : 0 ≤ b) (hb1 : b ≤ 1) (had : 0 ≤ ad) (hd : 0 ≤ d) :
    (0.0 ≤ compute_S c r (v : ℚ) ∧ compute_S c r (v : ℚ) ≤ 1.0) ∧
    (0.0 ≤ compute_C a k b ∧ compute_C a k b ≤ 1.0) ∧
    (0.0 ≤ compute_T ad (u : ℚ) d ∧ compute_T ad (u : ℚ) d ≤ 1.0) := by
  have hv : (0 : ℚ) ≤ (v : ℚ) := Nat.cast_nonneg v
  have hu : (0 : ℚ) ≤ (u : ℚ) := Nat.cast_nonneg u
  refine ⟨⟨?_, ?_⟩, ⟨?_, ?_⟩, ⟨?_, ?_⟩⟩
  · simp only [compute_S]
    have hbonus : (0 : ℚ) ≤ min ((v : ℚ) * 0.02) 0.1 :=
      le_min (by positivity) (by norm_num)
    exact le_min (by linarith) (by norm_num)
  · exact min_le_right _ _
  · exact le_max_right _ _
  · simp only [compute_C]
    exact max_le (by linarith) (by norm_num)
  · simp only [compute_T]
    have hbase := le_max_right (1.0 - ad * d) (0.0 : ℚ)
    have hbonus := le_min (mul_nonneg hu (by norm_num : (0 : ℚ) ≤ 0.05))
      (by norm_num : (0 : ℚ) ≤ 0.15)
    exact le_min (by linarith) (by norm_num)
  · exact min_le_right _ _

/-- Witness for claim C9 at ratings 1/2, bias 0.1, age 3, decay 0.05, 2
verifications and 1 update: all three sub-scores lie in [0, 1]. -/
theorem subscores_in_unit_interval_witness :
    (0.0 ≤ compute_S (1/2) (1/2) ((2 : ℕ) : ℚ) ∧ compute_S (1/2) (1/2) ((2 : ℕ) : ℚ) ≤ 1.0) ∧
    (0.0 ≤ compute_C (1/2) (1/2) 0.1 ∧ compute_C (1/2) (1/2) 0.1 ≤ 1.0) ∧
    (0.0 ≤ compute_T 3 ((1 : ℕ) : ℚ) 0.05 ∧ compute_T 3 ((1 : ℕ) : ℚ) 0.05 ≤ 1.0) :=
  subscores_in_unit_interval (1/2) (1/2) (1/2) (1/2) 0.1 3 0.05 2 1
    (by norm_num) (by norm_num) (by norm_num) (by norm_num) (by norm_num) (by norm_num)
    (by norm_num) (by norm_num) (by norm_num) (by norm_num) (by norm_num) (by norm_num)

/-- Claim C10: the verification bonus saturates at 0.1, so any verification
count of at least 5 yields the same source score as exactly 5. -/
theorem compute_S_bonus_saturates (c r : ℚ) (n : ℕ) (hn : 5 ≤ n) :
    compute_S c r (n : ℚ) = compute_S c r 5 := by
  have h5 : (5 : ℚ) ≤ (n : ℚ) := by
    exact_mod_cast hn
  simp only [compute_S]
  have h1 : min ((n : ℚ) * 0.02) 0.1 = 0.1 :=
    min_eq_right (by linarith)
  have h2 : min ((5 : ℚ) * 0.02) 0.1 = 0.1 := by
    norm_num
  rw [h1, h2]

/-- Witness for claim C10: 7 verifications score the same as 5. -/
theorem compute_S_bonus_saturates_witness :
    compute_S (1/2) (1/2) ((7 : ℕ) : ℚ) = compute_S (1/2) (1/2) 5 :=
  compute_S_bonus_saturates (1/2) (1/2) 7 (by norm_num)

end Veritas
